import Mathlib

/-!
Verification of the articles-parsing corpus pipeline.

This file is a shallow embedding of the core logic of the repository:

* `pipeline.py` — `MorphologicalToken`, `CorpusManager._scan_dataset`,
  `TextProcessingPipeline._process` / `run`, `validate_dataset`;
* `pos_frequency_pipeline.py` — `POSFrequencyPipeline.run`;
* `scrapper.py` — `validate_config`.

Strings are modelled as `List Char` (or Lean `String`, which wraps a
`List Char`); file systems are modelled as explicit lists of directory
entries (name and byte size); Python exceptions are modelled as `Except`
with one error constructor per exception class.  `Path.iterdir()` and
`Path.glob('*')` enumerate the same entries of a directory (pathlib's
`glob` does not special-case dot files), so both are modelled by one
listing.
-/

namespace ArticlesParsing

/-! ## Text processing pipeline: `MorphologicalToken` (pipeline.py 29-56) -/

/-- `MorphologicalToken` of pipeline.py: the original word, the Mystem
lemma (`normalized_form`), the Mystem grammar tags and the pymorphy tag. -/
structure MorphologicalToken where
  original_word : String
  normalized_form : String
  tags_mystem : String
  tags_pymorphy : String
deriving DecidableEq

/-- `get_cleaned` (pipeline.py 40-44): lower-cased original form. -/
def get_cleaned (t : MorphologicalToken) : String :=
  t.original_word.toLower

/-- `get_single_tagged` (pipeline.py 46-50):
`f'{self.normalized_form}({self.tags_pymorphy})'`. -/
def get_single_tagged (t : MorphologicalToken) : String :=
  t.normalized_form ++ "(" ++ t.tags_pymorphy ++ ")"

/-- `get_multiple_tagged` (pipeline.py 52-56):
`f'{self.normalized_form}<{self.tags_mystem}>({self.tags_pymorphy})'`. -/
def get_multiple_tagged (t : MorphologicalToken) : String :=
  t.normalized_form ++ "<" ++ t.tags_mystem ++ ">(" ++ t.tags_pymorphy ++ ")"

/-- The spec's wording of the `multiple_tagged` projection, for comparison
with `get_multiple_tagged`: the lemma, then the secondary (pymorphy) tag
set in angle brackets, then the primary (Mystem) tag set in parentheses. -/
def specMultipleTagged (t : MorphologicalToken) : String :=
  t.normalized_form ++ "<" ++ t.tags_pymorphy ++ ">(" ++ t.tags_mystem ++ ")"

/-! ## `TextProcessingPipeline._process` (pipeline.py 119-145)

`Mystem().analyze` is an external capability; its per-token result is a
dictionary with an optional `analysis` list whose entries optionally
carry `lex` and `gr` fields.  `pymorphy2.MorphAnalyzer().parse` is a
second external capability returning a list of parses, of which only the
first parse's `tag` is used; it is passed in as a function from the
token text to the list of its parses' tags. -/

/-- One entry of a Mystem `analysis` list: a dictionary that may or may
not contain the keys `lex` and `gr`. -/
structure MystemEntry where
  lex : Option String
  gr : Option String
deriving DecidableEq

/-- One token of `Mystem().analyze`: its surface `text` and the optional
`analysis` key. -/
structure MystemToken where
  text : String
  analysis : Option (List MystemEntry)
deriving DecidableEq

/-- The retention test of pipeline.py 130-132: the token has an
`analysis` key, the analysis list is non-empty and its first entry has
both a `lex` and a `gr` field. -/
def primaryOk (t : MystemToken) : Bool :=
  match t.analysis with
  | none => false
  | some [] => false
  | some (e :: _) => e.lex.isSome && e.gr.isSome

/-- `TextProcessingPipeline._process` after normalization (pipeline.py
128-145): walk the analyzed tokens; skip a token unless `primaryOk`;
build a `MorphologicalToken` from the first analysis entry; skip the
token if pymorphy returns no parses, otherwise take the first parse's
tag. -/
def processTokens (pym : String → List String) : List MystemToken → List MorphologicalToken
  | [] => []
  | t :: rest =>
    match t.analysis with
    | none => processTokens pym rest
    | some [] => processTokens pym rest
    | some (e :: _) =>
      match e.lex, e.gr with
      | some lexeme, some grTags =>
        match pym t.text with
        | [] => processTokens pym rest
        | ptag :: _ =>
          { original_word := t.text, normalized_form := lexeme,
            tags_mystem := grTags, tags_pymorphy := ptag } :: processTokens pym rest
      | some _, none => processTokens pym rest
      | none, some _ => processTokens pym rest
      | none, none => processTokens pym rest

/-! ## Stage-1 normalization and tokenization (pipeline.py 123) -/

/-- First normalization step of `_process` (pipeline.py 123):
`raw_text.replace('-\n', '')` — delete every occurrence of a hyphen
immediately followed by a line break, scanning left to right. -/
def removeHyphenBreak : List Char → List Char
  | [] => []
  | [c] => [c]
  | c1 :: c2 :: rest =>
    if c1 = '-' ∧ c2 = '\n' then removeHyphenBreak rest
    else c1 :: removeHyphenBreak (c2 :: rest)

/-- Second normalization step of `_process` (pipeline.py 123):
`.replace('\n', ' ')` — replace every line break by a space. -/
def newlineToSpace : List Char → List Char
  | [] => []
  | c :: rest => (if c = '\n' then ' ' else c) :: newlineToSpace rest

/-- The composed stage-1 normalization (pipeline.py 123). -/
def normalizeText (s : List Char) : List Char :=
  newlineToSpace (removeHyphenBreak s)

/-- Modelled from the spec: the word tokenizer is external
(`Mystem().analyze` segments the normalized text into word tokens); per
§4.3 it splits the normalized text into its space-separated words. -/
def tokenizeWords (s : List Char) : List (List Char) :=
  (s.splitOn ' ').filter (fun w => ¬ w.isEmpty)

/-! ## POS frequency pipeline (pos_frequency_pipeline.py)

The tag extraction `re.findall(r'<([A-Z]+)', text)` returns, scanning
left to right, for every `<` that is immediately followed by at least
one ASCII uppercase letter, the maximal run of uppercase letters after
it.  Matches of this pattern can never overlap — an uppercase run
contains no `<` — so the scan below, which examines every position, has
exactly the non-overlapping `findall` semantics. -/

/-- The character class `[A-Z]` of the tag pattern. -/
def isUpperAZ (c : Char) : Bool := 'A' ≤ c && c ≤ 'Z'

/-- All matches of `re.findall(r'<([A-Z]+)', text)` in order
(pos_frequency_pipeline.py 35-37). -/
def findTags : List Char → List (List Char)
  | [] => []
  | c :: rest =>
    if c = '<' ∧ rest.takeWhile isUpperAZ ≠ [] then
      rest.takeWhile isUpperAZ :: findTags rest
    else findTags rest

/-- One iteration of the counting loop (pos_frequency_pipeline.py
37-41): `if pos not in pos_freq: pos_freq[pos] = 1 else:
pos_freq[pos] += 1` on an insertion-ordered dictionary. -/
def bumpTag : List (List Char × Nat) → List Char → List (List Char × Nat)
  | [], t => [(t, 1)]
  | (k, n) :: rest, t =>
    if k = t then (k, n + 1) :: rest else (k, n) :: bumpTag rest t

/-- The `pos_freq` dictionary built by the counting loop. -/
def posFreqDict (tags : List (List Char)) : List (List Char × Nat) :=
  tags.foldl bumpTag []

/-- Dictionary lookup, `0` when the key is absent. -/
def lookupCount : List (List Char × Nat) → List Char → Nat
  | [], _ => 0
  | (k, n) :: rest, t => if k = t then n else lookupCount rest t

/-- The number of occurrences, in `s`, of a `<` immediately followed by
the maximal uppercase run `tag`: one per suffix of `s` that starts with
`<` whose following maximal run of uppercase letters is exactly `tag`
(and is non-empty). -/
def occAt : List Char → List Char → Nat
  | [], _ => 0
  | c :: rest, tag =>
    (if c = '<' ∧ rest.takeWhile isUpperAZ = tag ∧ tag ≠ [] then 1 else 0) + occAt rest tag

/-! ## Metadata records (JSON) and the stage-2 read-modify-write -/

/-- A JSON value as produced by `json.load`: metadata records are
`jobj` association lists that preserve key order, as Python dicts do. -/
inductive JsonVal where
  | jnull
  | jbool (b : Bool)
  | jnum (n : Int)
  | jstr (s : String)
  | jarr (elems : List JsonVal)
  | jobj (fields : List (String × JsonVal))

/-- Key lookup in a JSON object (Python `dict.__getitem__` /
`__contains__`). -/
def lookupJ : List (String × JsonVal) → String → Option JsonVal
  | [], _ => none
  | (k', v') :: rest, k => if k' = k then some v' else lookupJ rest k

/-- `meta.update({k: v})` on a Python dict (unique keys): an existing
key keeps its position and gets the new value, a new key is appended at
the end (pos_frequency_pipeline.py 45). -/
def setKey : List (String × JsonVal) → String → JsonVal → List (String × JsonVal)
  | [], k, v => [(k, v)]
  | (k', v') :: rest, k, v =>
    if k' = k then (k, v) :: rest else (k', v') :: setKey rest k v

/-- The computed `pos_frequencies` mapping as a JSON value. -/
def freqJson (text : List Char) : JsonVal :=
  JsonVal.jobj ((posFreqDict (findTags text)).map
    (fun p => (String.mk p.1, JsonVal.jnum (Int.ofNat p.2))))

/-- The metadata read-modify-write of stage 2
(pos_frequency_pipeline.py 43-48): load the record, set
`pos_frequencies` to the computed mapping, write the record back. -/
def stage2UpdateMeta (meta : List (String × JsonVal)) (text : List Char) :
    List (String × JsonVal) :=
  setKey meta "pos_frequencies" (freqJson text)

/-- `EmptyFileError` of pos_frequency_pipeline.py 13-16. -/
inductive PosPipelineError where
  | emptyFileError
deriving DecidableEq

/-- One article as seen by `POSFrequencyPipeline.run`: the content of
its `multiple_tagged` artifact and its persisted metadata record. -/
structure PosArticle where
  articleId : Nat
  multipleTagged : List Char
  meta : List (String × JsonVal)

/-- The per-article body of `POSFrequencyPipeline.run`
(pos_frequency_pipeline.py 29-52): read the `multiple_tagged` artifact;
if its content is empty raise `EmptyFileError`; otherwise count the tag
frequencies and rewrite the metadata record with `pos_frequencies`
set. -/
def posStep (a : PosArticle) : Except PosPipelineError PosArticle :=
  if a.multipleTagged.isEmpty then Except.error PosPipelineError.emptyFileError
  else Except.ok { a with meta := stage2UpdateMeta a.meta a.multipleTagged }

/-- `POSFrequencyPipeline.run` over the whole store: articles are
processed in sequence and the first raised error aborts the run. -/
def posRun : List PosArticle → Except PosPipelineError (List PosArticle)
  | [] => Except.ok []
  | a :: rest =>
    match posStep a with
    | Except.error e => Except.error e
    | Except.ok a' =>
      match posRun rest with
      | Except.error e => Except.error e
      | Except.ok rest' => Except.ok (a' :: rest')

/-! ## Scrapper configuration validation (scrapper.py 84-113) -/

/-- The exceptions `validate_config` can raise: the three classes
declared in scrapper.py 20-36 plus the unclassified Python `KeyError`
(raised by a dict subscript on a missing key) and `TypeError` (raised
by `in` on a non-string operand). -/
inductive ScrapperError where
  | keyError
  | typeError
  | incorrectURLError
  | incorrectNumberOfArticlesError
  | numberOfArticlesOutOfRangeError
deriving DecidableEq

/-- Python substring test `pat in s` on lists of characters. -/
def listContainsSub : List Char → List Char → Bool
  | pat, [] => pat.isEmpty
  | pat, c :: rest => pat.isPrefixOf (c :: rest) || listContainsSub pat rest

/-- Python substring test `pat in s` on strings. -/
def strContainsSub (pat s : String) : Bool :=
  listContainsSub pat.toList s.toList

/-- The seed-URL loop of scrapper.py 103-105: `URL_PATTERN not in
seed_url` raises `IncorrectURLError`; applying `in` to a non-string
entry is a Python `TypeError`. -/
def checkSeedUrls (urlPat : String) : List JsonVal → Except ScrapperError Unit
  | [] => Except.ok ()
  | JsonVal.jstr u :: rest =>
    if strContainsSub urlPat u then checkSeedUrls urlPat rest
    else Except.error ScrapperError.incorrectURLError
  | _ :: _ => Except.error ScrapperError.typeError

/-- `validate_config` (scrapper.py 84-113), statement for statement:
the two dict subscripts on lines 91-92 run BEFORE the two membership
checks on lines 94-97, so a missing key raises `KeyError` there; then
the list checks, the per-URL pattern check, the integer/positivity
check and the 300 ceiling.  `URL_PATTERN` lives in the external
`constants` module and is passed as the `urlPat` parameter. -/
def validate_config (urlPat : String) (cfg : List (String × JsonVal)) :
    Except ScrapperError (JsonVal × JsonVal) :=
  match lookupJ cfg "seed_urls" with
  | none => Except.error ScrapperError.keyError
  | some seed_urls =>
    match lookupJ cfg "total_articles_to_find_and_parse" with
    | none => Except.error ScrapperError.keyError
    | some max_articles =>
      if (lookupJ cfg "seed_urls").isNone then
        Except.error ScrapperError.incorrectURLError
      else if (lookupJ cfg "total_articles_to_find_and_parse").isNone then
        Except.error ScrapperError.incorrectNumberOfArticlesError
      else
        match seed_urls with
        | JsonVal.jarr urls =>
          if urls.isEmpty then Except.error ScrapperError.incorrectURLError
          else
            match checkSeedUrls urlPat urls with
            | Except.error e => Except.error e
            | Except.ok _ =>
              match max_articles with
              | JsonVal.jnum n =>
                if n ≤ 0 then Except.error ScrapperError.incorrectNumberOfArticlesError
                else if n > 300 then
                  Except.error ScrapperError.numberOfArticlesOutOfRangeError
                else Except.ok (seed_urls, max_articles)
              | _ => Except.error ScrapperError.incorrectNumberOfArticlesError
        | _ => Except.error ScrapperError.incorrectURLError

/-! ## Dataset validation (pipeline.py 148-195) and the corpus scan
(pipeline.py 69-79)

A directory is a list of entries, each with a file name and a byte
size.  `Path.iterdir()` and `Path.glob('*')` both enumerate these
entries.  The claims under verification presuppose that the dataset
path exists and is a directory, so the two preliminary gates
(`FileNotFoundError`, `NotADirectoryError`) are upstream of this model.
Python's `\d` is modelled as the ASCII digits. -/

/-- One directory entry: its file name and its `stat().st_size`. -/
structure FileEntry where
  name : List Char
  size : Nat
deriving DecidableEq

/-- The exceptions of `validate_dataset`: the two custom classes of
pipeline.py 14-26 and the `IndexError` a `sorted_numeration[0]` access
on an empty list would raise. -/
inductive DatasetError where
  | emptyDirectoryError
  | inconsistentDatasetError
  | indexError
deriving DecidableEq

/-- `int(...)` on a run of decimal digits. -/
def digitsVal (ds : List Char) : Nat :=
  ds.foldl (fun acc c => acc * 10 + (c.toNat - '0'.toNat)) 0

/-- `re.compile(r'(\d+)').match(name)` followed by `int(...group(1))`
(pipeline.py 167-174): the maximal digit run anchored at the start of
the name, `none` when the name does not begin with a digit. -/
def leadingNat (name : List Char) : Option Nat :=
  match name with
  | [] => none
  | c :: _ =>
    if c.isDigit then some (digitsVal (name.takeWhile Char.isDigit)) else none

/-- `re.compile(r'\d+').search(name)` followed by `int(...[0])`
(pipeline.py 74-78): the first maximal digit run found anywhere in the
name. -/
def searchNat : List Char → Option Nat
  | [] => none
  | c :: rest =>
    if c.isDigit then some (digitsVal (c :: rest.takeWhile Char.isDigit))
    else searchNat rest

/-- `file.name.endswith('raw.txt')` (pipeline.py 177). -/
def hasRawSuffix (name : List Char) : Bool :=
  List.isSuffixOf "raw.txt".toList name

/-- `file.name.endswith('meta.json')` (pipeline.py 179). -/
def hasMetaSuffix (name : List Char) : Bool :=
  List.isSuffixOf "meta.json".toList name

/-- `'_raw.txt' in file.name` (pipeline.py 76 and 182). -/
def hasRawMarker (name : List Char) : Bool :=
  listContainsSub "_raw.txt".toList name

/-- The per-file loop of `validate_dataset` (pipeline.py 169-183):
for each file, in order, require a leading integer in the name
(else `InconsistentDatasetError`), collect it into `numeration`, count
the `raw.txt` / `meta.json` suffixes, and require every file whose
name contains `_raw.txt` to be non-empty (else
`InconsistentDatasetError`). -/
def scanFiles : List FileEntry → Except DatasetError (List Nat × Nat × Nat)
  | [] => Except.ok ([], 0, 0)
  | f :: rest =>
    match leadingNat f.name with
    | none => Except.error DatasetError.inconsistentDatasetError
    | some n =>
      if hasRawMarker f.name ∧ f.size = 0 then
        Except.error DatasetError.inconsistentDatasetError
      else
        match scanFiles rest with
        | Except.error e => Except.error e
        | Except.ok (nums, nraw, nmeta) =>
          Except.ok (n :: nums,
            (if hasRawSuffix f.name then 1 else 0) + nraw,
            (if hasMetaSuffix f.name then 1 else 0) + nmeta)

/-- The contiguity loop of pipeline.py 188-192: `previous = 0; for
number in sorted_numeration: if number - previous != 1: raise
InconsistentDatasetError; previous = number` (Python int
subtraction). -/
def checkConsecutive : Int → List Nat → Except DatasetError Unit
  | _, [] => Except.ok ()
  | previous, n :: rest =>
    if (n : Int) - previous ≠ 1 then Except.error DatasetError.inconsistentDatasetError
    else checkConsecutive (n : Int) rest

/-- `sorted(set(numeration))` (pipeline.py 185). -/
def sortedDedup (l : List Nat) : List Nat :=
  List.insertionSort (· ≤ ·) l.dedup

/-- `validate_dataset` (pipeline.py 148-195) from the point where the
path is known to exist and be a directory: raise `EmptyDirectoryError`
on an empty listing; run the per-file loop; take
`sorted_numeration[0]` (an `IndexError` if the list is empty), require
it to be 1; require the sorted distinct ids to be consecutive; require
equal `raw.txt` and `meta.json` counts. -/
def validate_dataset (files : List FileEntry) : Except DatasetError Unit :=
  if files.isEmpty then Except.error DatasetError.emptyDirectoryError
  else
    match scanFiles files with
    | Except.error e => Except.error e
    | Except.ok (nums, nraw, nmeta) =>
      match sortedDedup nums with
      | [] => Except.error DatasetError.indexError
      | first :: _ =>
        if first ≠ 1 then Except.error DatasetError.inconsistentDatasetError
        else
          match checkConsecutive 0 (sortedDedup nums) with
          | Except.error e => Except.error e
          | Except.ok _ =>
            if nraw ≠ nmeta then Except.error DatasetError.inconsistentDatasetError
            else Except.ok ()

/-- `CorpusManager._scan_dataset` (pipeline.py 69-79): for every entry
whose name contains `_raw.txt`, extract `int(re.search(r'\d+',
name)[0])` and register the id; subscripting a failed search is a
Python `TypeError`, modelled as `none`. -/
def scanIds : List FileEntry → Option (List Nat)
  | [] => some []
  | f :: rest =>
    if hasRawMarker f.name then
      match searchNat f.name with
      | none => none
      | some n => (scanIds rest).map (fun ids => n :: ids)
    else scanIds rest

end ArticlesParsing

namespace ArticlesParsing

/-! ## Theorems -/

theorem newlineToSpace_no_newline (s : List Char) : '\n' ∉ newlineToSpace s := by
  induction s with
  | nil => simp [newlineToSpace]
  | cons c rest ih =>
    simp only [newlineToSpace, List.mem_cons]
    rintro (h | h)
    · by_cases hc : c = '\n' <;> simp [hc] at h
      exact hc h.symm
    · exact ih h

theorem processTokens_cons_not_primary (pym : String → List String) (t : MystemToken)
    (rest : List MystemToken) (h : primaryOk t = false) :
    processTokens pym (t :: rest) = processTokens pym rest := by
  rcases ht : t.analysis with _ | ⟨_ | ⟨e, es⟩⟩
  · simp [processTokens, ht]
  · simp [processTokens, ht]
  · rcases hl : e.lex with _ | lexeme <;> rcases hg : e.gr with _ | grTags
    · simp [processTokens, ht, hl, hg]
    · simp [processTokens, ht, hl, hg]
    · simp [processTokens, ht, hl, hg]
    · simp [primaryOk, ht, hl, hg] at h

theorem processTokens_length_le (pym : String → List String) :
    ∀ ts : List MystemToken, (processTokens pym ts).length ≤ ts.length := by
  intro ts
  induction ts with
  | nil => simp [processTokens]
  | cons t rest ih =>
    rcases ht : t.analysis with _ | ⟨_ | ⟨e, es⟩⟩
    · simpa [processTokens, ht] using Nat.le_succ_of_le ih
    · simpa [processTokens, ht] using Nat.le_succ_of_le ih
    · rcases hl : e.lex with _ | lexeme <;> rcases hg : e.gr with _ | grTags
      · simpa [processTokens, ht, hl, hg] using Nat.le_succ_of_le ih
      · simpa [processTokens, ht, hl, hg] using Nat.le_succ_of_le ih
      · simpa [processTokens, ht, hl, hg] using Nat.le_succ_of_le ih
      · rcases hp : pym t.text with _ | ⟨ptag, ps⟩
        · simpa [processTokens, ht, hl, hg, hp] using Nat.le_succ_of_le ih
        · simpa [processTokens, ht, hl, hg, hp] using Nat.succ_le_succ ih

theorem processTokens_filter_primary (pym : String → List String) :
    ∀ ts : List MystemToken, processTokens pym (ts.filter primaryOk) = processTokens pym ts := by
  intro ts
  induction ts with
  | nil => rfl
  | cons t rest ih =>
    by_cases hpk : primaryOk t
    · rw [List.filter_cons_of_pos hpk]
      rcases ht : t.analysis with _ | ⟨_ | ⟨e, es⟩⟩ <;> simp [primaryOk, ht] at hpk
      rcases hl : e.lex with _ | lexeme <;> rcases hg : e.gr with _ | grTags <;>
        simp [hl, hg] at hpk
      rcases hp : pym t.text with _ | ⟨ptag, ps⟩
      · simp [processTokens, ht, hl, hg, hp, ih]
      · simp [processTokens, ht, hl, hg, hp, ih]
    · rw [List.filter_cons_of_neg hpk,
        processTokens_cons_not_primary pym t rest (by simpa using hpk)]
      exact ih

theorem processTokens_sourced (pym : String → List String) :
    ∀ (ts : List MystemToken) (t : MorphologicalToken), t ∈ processTokens pym ts →
      ∃ src ∈ ts, ∃ e es ps,
        src.analysis = some (e :: es)
        ∧ e.lex = some t.normalized_form
        ∧ e.gr = some t.tags_mystem
        ∧ pym src.text = t.tags_pymorphy :: ps
        ∧ t.original_word = src.text := by
  intro ts
  induction ts with
  | nil => intro t ht; simp [processTokens] at ht
  | cons s rest ih =>
    intro t ht
    rcases hs : s.analysis with _ | ⟨_ | ⟨e, es⟩⟩
    · rw [processTokens_cons_not_primary pym s rest (by simp [primaryOk, hs])] at ht
      obtain ⟨src, hmem, rest'⟩ := ih t ht
      exact ⟨src, List.mem_cons_of_mem _ hmem, rest'⟩
    · rw [processTokens_cons_not_primary pym s rest (by simp [primaryOk, hs])] at ht
      obtain ⟨src, hmem, rest'⟩ := ih t ht
      exact ⟨src, List.mem_cons_of_mem _ hmem, rest'⟩
    · rcases hl : e.lex with _ | lexeme <;> rcases hg : e.gr with _ | grTags
      · rw [processTokens_cons_not_primary pym s rest (by simp [primaryOk, hs, hl, hg])] at ht
        obtain ⟨src, hmem, rest'⟩ := ih t ht
        exact ⟨src, List.mem_cons_of_mem _ hmem, rest'⟩
      · rw [processTokens_cons_not_primary pym s rest (by simp [primaryOk, hs, hl, hg])] at ht
        obtain ⟨src, hmem, rest'⟩ := ih t ht
        exact ⟨src, List.mem_cons_of_mem _ hmem, rest'⟩
      · rw [processTokens_cons_not_primary pym s rest (by simp [primaryOk, hs, hl, hg])] at ht
        obtain ⟨src, hmem, rest'⟩ := ih t ht
        exact ⟨src, List.mem_cons_of_mem _ hmem, rest'⟩
      · rcases hp : pym s.text with _ | ⟨ptag, ps⟩
        · simp only [processTokens, hs, hl, hg, hp] at ht
          obtain ⟨src, hmem, rest'⟩ := ih t ht
          exact ⟨src, List.mem_cons_of_mem _ hmem, rest'⟩
        · simp only [processTokens, hs, hl, hg, hp, List.mem_cons] at ht
          rcases ht with ht | ht
          · subst ht
            exact ⟨s, List.mem_cons_self _ _, e, es, ps, hs, hl, hg, hp, rfl⟩
          · obtain ⟨src, hmem, rest'⟩ := ih t ht
            exact ⟨src, List.mem_cons_of_mem _ hmem, rest'⟩

/-- C7: stage-1 normalization (pipeline.py 123) deletes each occurrence
of a hyphen immediately followed by a line break, joining the split
word, and replaces every remaining line break with a space (so no line
break survives normalization); in particular the raw text
`"co-\noperation works"` tokenizes to the joined word `cooperation`
followed by `works`. -/
theorem c7_hyphen_linebreak_normalization :
    (∀ s : List Char, '\n' ∉ normalizeText s)
    ∧ normalizeText "co-\noperation works".toList = "cooperation works".toList
    ∧ tokenizeWords (normalizeText "co-\noperation works".toList)
        = ["cooperation".toList, "works".toList] := by
  refine ⟨fun s => newlineToSpace_no_newline _, by decide, by decide⟩

/-- C2 counterexample: on the token `cat` whose Mystem (primary)
analysis has lemma `cat` and tag set `S` and whose first pymorphy
(secondary) parse has tag set `NOUN`, the pipeline retains one token,
and its `get_multiple_tagged` projection differs from the claim's
format (lemma, secondary tags in angle brackets, primary tags in
parentheses). -/
theorem c2_multiple_tagged_counterexample :
    processTokens (fun _ => ["NOUN"])
        [{ text := "cat", analysis := some [{ lex := some "cat", gr := some "S" }] }]
      = [{ original_word := "cat", normalized_form := "cat",
           tags_mystem := "S", tags_pymorphy := "NOUN" }]
    ∧ get_multiple_tagged
        { original_word := "cat", normalized_form := "cat",
          tags_mystem := "S", tags_pymorphy := "NOUN" }
      ≠ specMultipleTagged
        { original_word := "cat", normalized_form := "cat",
          tags_mystem := "S", tags_pymorphy := "NOUN" } :=
  ⟨rfl, by decide⟩

/-- C2 amended: for every retained token, the `multiple_tagged`
projection is the lemma followed by the PRIMARY (Mystem) tag set in
angle brackets followed by the SECONDARY (pymorphy) tag set in
parentheses, where the retained token's lemma and angle-bracket tag set
come from the first entry of the primary analysis and its parenthesized
tag set comes from the first pymorphy parse. -/
theorem c2_multiple_tagged_amended (pym : String → List String) (ts : List MystemToken)
    (t : MorphologicalToken) (ht : t ∈ processTokens pym ts) :
    get_multiple_tagged t
      = t.normalized_form ++ "<" ++ t.tags_mystem ++ ">(" ++ t.tags_pymorphy ++ ")"
    ∧ ∃ src ∈ ts, ∃ e es ps,
        src.analysis = some (e :: es)
        ∧ e.lex = some t.normalized_form
        ∧ e.gr = some t.tags_mystem
        ∧ pym src.text = t.tags_pymorphy :: ps
        ∧ t.original_word = src.text :=
  ⟨rfl, processTokens_sourced pym ts t ht⟩

theorem c2_multiple_tagged_amended_witness :
    get_multiple_tagged
      { original_word := "cat", normalized_form := "cat",
        tags_mystem := "S", tags_pymorphy := "NOUN" } = "cat<S>(NOUN)" := by
  have h := c2_multiple_tagged_amended (fun _ => ["NOUN"])
    [{ text := "cat", analysis := some [{ lex := some "cat", gr := some "S" }] }]
    { original_word := "cat", normalized_form := "cat",
      tags_mystem := "S", tags_pymorphy := "NOUN" } (by decide)
  exact h.1.trans (by decide)

/-- C3: a token is retained by `_process` only if the primary (Mystem)
analysis is non-empty with both a `lex` and a `gr` field — dropping the
tokens that fail this test changes nothing — and each of the three
artifact token lists (cleaned, single_tagged, multiple_tagged) has at
most as many tokens as the analyzed input. -/
theorem c3_retention_only_if_primary (pym : String → List String) (ts : List MystemToken) :
    processTokens pym (ts.filter primaryOk) = processTokens pym ts
    ∧ (processTokens pym ts).length ≤ ts.length
    ∧ ((processTokens pym ts).map get_cleaned).length ≤ ts.length
    ∧ ((processTokens pym ts).map get_single_tagged).length ≤ ts.length
    ∧ ((processTokens pym ts).map get_multiple_tagged).length ≤ ts.length := by
  refine ⟨processTokens_filter_primary pym ts, processTokens_length_le pym ts, ?_, ?_, ?_⟩ <;>
    simpa [List.length_map] using processTokens_length_le pym ts

theorem lookupCount_bumpTag (acc : List (List Char × Nat)) (t t' : List Char) :
    lookupCount (bumpTag acc t) t' = lookupCount acc t' + (if t = t' then 1 else 0) := by
  induction acc with
  | nil => by_cases h : t = t' <;> simp [bumpTag, lookupCount, h]
  | cons p rest ih =>
    obtain ⟨k, n⟩ := p
    simp only [bumpTag]
    by_cases hk : k = t
    · rw [if_pos hk]
      by_cases ht' : k = t'
      · have heq : t = t' := hk.symm.trans ht'
        simp [lookupCount, ht', heq]
      · have hne : t ≠ t' := fun hh => ht' (hk.trans hh)
        simp [lookupCount, ht', hne]
    · rw [if_neg hk]
      by_cases ht' : k = t'
      · have hne : t ≠ t' := fun hh => hk (ht'.trans hh.symm)
        simp [lookupCount, ht', hne]
      · simp [lookupCount, ht', ih]

theorem lookupCount_foldl (tags : List (List Char)) :
    ∀ (acc : List (List Char × Nat)) (t : List Char),
      lookupCount (tags.foldl bumpTag acc) t = lookupCount acc t + tags.count t := by
  induction tags with
  | nil => intro acc t; simp
  | cons h tl ih =>
    intro acc t
    simp only [List.foldl_cons]
    rw [ih, lookupCount_bumpTag, List.count_cons]
    by_cases hh : h = t <;> simp [hh] <;> omega

theorem count_findTags (s tag : List Char) :
    (findTags s).count tag = occAt s tag := by
  induction s with
  | nil => simp [findTags, occAt]
  | cons c rest ih =>
    by_cases hc : c = '<' ∧ rest.takeWhile isUpperAZ ≠ []
    · obtain ⟨hc1, hc2⟩ := hc
      simp only [findTags, occAt, if_pos (And.intro hc1 hc2), List.count_cons, ih]
      by_cases hr : rest.takeWhile isUpperAZ = tag
      · have htag : tag ≠ [] := hr ▸ hc2
        simp [hc1, hr, htag]
        omega
      · simp [hc1, hr]
    · have h0 : ¬(c = '<' ∧ rest.takeWhile isUpperAZ = tag ∧ tag ≠ []) := by
        rintro ⟨h1, h2, h3⟩
        exact hc ⟨h1, by rw [h2]; exact h3⟩
      simp only [findTags, occAt, if_neg hc, if_neg h0, ih]
      omega

/-- C4: for every text, the frequency dictionary built by stage 2 maps
each tag to the number of occurrences in the text of `<` immediately
followed by that maximal run of uppercase letters; in the example text
with two occurrences of `<NOUN` and one of `<ADJ` the dictionary is
`{NOUN: 2, ADJ: 1}`. -/
theorem c4_tag_frequency (s tag : List Char) :
    lookupCount (posFreqDict (findTags s)) tag = occAt s tag
    ∧ posFreqDict (findTags "ab<NOUN>(x) cd<ADJ>(y) ef<NOUN>(z)".toList)
        = [("NOUN".toList, 2), ("ADJ".toList, 1)] := by
  constructor
  · rw [posFreqDict, lookupCount_foldl, count_findTags]
    simp [lookupCount]
  · decide

theorem lookupJ_setKey_ne (m : List (String × JsonVal)) (k : String) (v : JsonVal)
    (k' : String) (h : k' ≠ k) : lookupJ (setKey m k v) k' = lookupJ m k' := by
  induction m with
  | nil =>
    have h1 : ¬ k = k' := fun hh => h hh.symm
    simp [setKey, lookupJ, h1]
  | cons p rest ih =>
    obtain ⟨k'', v''⟩ := p
    simp only [setKey]
    by_cases hk : k'' = k
    · rw [if_pos hk]
      have h1 : ¬ k = k' := fun hh => h hh.symm
      have h2 : ¬ k'' = k' := fun hh => h1 (hk.symm.trans hh)
      simp [lookupJ, h1, h2]
    · rw [if_neg hk]
      by_cases hk' : k'' = k' <;> simp [lookupJ, hk', ih]

theorem setKey_of_not_mem (m : List (String × JsonVal)) (k : String) (v : JsonVal)
    (h : k ∉ m.map Prod.fst) : setKey m k v = m ++ [(k, v)] := by
  induction m with
  | nil => simp [setKey]
  | cons p rest ih =>
    obtain ⟨k'', v''⟩ := p
    simp only [List.map_cons, List.mem_cons, not_or] at h
    have : ¬ k'' = k := fun hh => h.1 hh.symm
    simp [setKey, this, ih h.2]

theorem setKey_idem (m : List (String × JsonVal)) (k : String) (v : JsonVal) :
    setKey (setKey m k v) k v = setKey m k v := by
  induction m with
  | nil => simp [setKey]
  | cons p rest ih =>
    obtain ⟨k'', v''⟩ := p
    by_cases hk : k'' = k <;> simp [setKey, hk, ih]

/-- C5: the stage-2 metadata read-modify-write touches only the
`pos_frequencies` key — every other key keeps its value, a record
without the key is extended by appending it at the end (the whole
original record is a prefix of the rewritten one) — and a second run on
identical artifacts rewrites the identical record. -/
theorem c5_metadata_update_frame (meta : List (String × JsonVal)) (text : List Char)
    (k : String) :
    (k ≠ "pos_frequencies" → lookupJ (stage2UpdateMeta meta text) k = lookupJ meta k)
    ∧ ("pos_frequencies" ∉ meta.map Prod.fst →
        stage2UpdateMeta meta text = meta ++ [("pos_frequencies", freqJson text)])
    ∧ stage2UpdateMeta (stage2UpdateMeta meta text) text = stage2UpdateMeta meta text :=
  ⟨fun h => lookupJ_setKey_ne meta _ _ k h,
   fun h => setKey_of_not_mem meta _ _ h,
   setKey_idem meta _ _⟩

theorem c5_metadata_update_frame_witness :
    lookupJ (stage2UpdateMeta [("author", JsonVal.jstr "a")] "x<S>y".toList) "author"
      = some (JsonVal.jstr "a") := by
  have h := (c5_metadata_update_frame [("author", JsonVal.jstr "a")] "x<S>y".toList
    "author").1 (by decide)
  rw [h]
  rfl

/-- C6: for every article visited by `POSFrequencyPipeline.run`, an
empty `multiple_tagged` artifact raises `EmptyFileError` (the taxonomy's
`EmptyArtifactError`) before that article's metadata is modified: the
per-article step returns the error without producing an updated
article, and the run aborts on it. -/
theorem c6_empty_artifact_aborts (a : PosArticle) (h : a.multipleTagged = []) :
    posStep a = Except.error PosPipelineError.emptyFileError
    ∧ ∀ rest : List PosArticle,
        posRun (a :: rest) = Except.error PosPipelineError.emptyFileError := by
  have hstep : posStep a = Except.error PosPipelineError.emptyFileError := by
    simp [posStep, h]
  exact ⟨hstep, fun rest => by simp [posRun, hstep]⟩

/-- C8: the unreachable membership checks of scrapper.py 94-97.  On a
configuration record missing `seed_urls` (or missing
`total_articles_to_find_and_parse`), `validate_config` fails with the
unclassified `KeyError` of the dict subscripts on lines 91-92 — not
with `IncorrectURLError` / `IncorrectNumberOfArticlesError` as the
dead checks on lines 94-97 intend — while a well-formed record is
accepted. -/
theorem c8_missing_field_raises_keyerror :
    validate_config "pat" [("total_articles_to_find_and_parse", JsonVal.jnum 5)]
      = Except.error ScrapperError.keyError
    ∧ validate_config "pat" [("seed_urls", JsonVal.jarr [JsonVal.jstr "xpaty"])]
      = Except.error ScrapperError.keyError
    ∧ validate_config "pat"
        [("seed_urls", JsonVal.jarr [JsonVal.jstr "xpaty"]),
         ("total_articles_to_find_and_parse", JsonVal.jnum 5)]
      = Except.ok (JsonVal.jarr [JsonVal.jstr "xpaty"], JsonVal.jnum 5)
    ∧ ScrapperError.keyError ≠ ScrapperError.incorrectURLError
    ∧ ScrapperError.keyError ≠ ScrapperError.incorrectNumberOfArticlesError :=
  ⟨rfl, rfl, rfl, by decide, by decide⟩

theorem c6_empty_artifact_aborts_witness :
    posRun [{ articleId := 1, multipleTagged := [],
              meta := [("title", JsonVal.jstr "t")] }]
      = Except.error PosPipelineError.emptyFileError :=
  (c6_empty_artifact_aborts
    { articleId := 1, multipleTagged := [], meta := [("title", JsonVal.jstr "t")] }
    rfl).2 []

theorem length_filterMap_of_isSome {α β : Type} (g : α → Option β) :
    ∀ l : List α, (∀ a ∈ l, (g a).isSome = true) → (l.filterMap g).length = l.length := by
  intro l
  induction l with
  | nil => simp
  | cons a tl ih =>
    intro h
    obtain ⟨ha, htl⟩ := List.forall_mem_cons.mp h
    obtain ⟨b, hb⟩ := Option.isSome_iff_exists.mp ha
    simp [List.filterMap_cons, hb, ih htl]

theorem scanFiles_ok_props (files : List FileEntry) :
    ∀ {nums : List Nat} {nraw nmeta : Nat},
      scanFiles files = Except.ok (nums, nraw, nmeta) →
      ((∀ f ∈ files, (leadingNat f.name).isSome = true
          ∧ (hasRawMarker f.name = true → f.size ≠ 0))
       ∧ nums = files.filterMap (fun f => leadingNat f.name)
       ∧ nraw = files.countP (fun f => hasRawSuffix f.name)
       ∧ nmeta = files.countP (fun f => hasMetaSuffix f.name)) := by
  induction files with
  | nil =>
    intro nums nraw nmeta h
    simp only [scanFiles, Except.ok.injEq, Prod.mk.injEq] at h
    obtain ⟨h1, h2, h3⟩ := h
    simp [← h1, ← h2, ← h3]
  | cons f rest ih =>
    intro nums nraw nmeta h
    cases hlead : leadingNat f.name with
    | none => simp [scanFiles, hlead] at h
    | some n =>
      by_cases hguard : hasRawMarker f.name ∧ f.size = 0
      · simp [scanFiles, hlead, hguard] at h
      · cases hrest : scanFiles rest with
        | error e => simp [scanFiles, hlead, hguard, hrest] at h
        | ok triple =>
          obtain ⟨nums', nraw', nmeta'⟩ := triple
          simp only [scanFiles, hlead, hguard, hrest, if_neg hguard,
            Except.ok.injEq, Prod.mk.injEq] at h
          obtain ⟨rfl, rfl, rfl⟩ := h
          obtain ⟨hall, hn, hr, hm⟩ := ih hrest
          refine ⟨List.forall_mem_cons.mpr ⟨⟨by simp [hlead], ?_⟩, hall⟩, ?_, ?_, ?_⟩
          · intro hmk hsz
            exact hguard ⟨hmk, hsz⟩
          · simp [hn, List.filterMap_cons, hlead]
          · rw [List.countP_cons]
            by_cases hs : hasRawSuffix f.name <;> simp [hs, hr] <;> omega
          · rw [List.countP_cons]
            by_cases hs : hasMetaSuffix f.name <;> simp [hs, hm] <;> omega

theorem scanFiles_ok_of_props (files : List FileEntry)
    (hall : ∀ f ∈ files, (leadingNat f.name).isSome = true
      ∧ (hasRawMarker f.name = true → f.size ≠ 0)) :
    scanFiles files = Except.ok
      (files.filterMap (fun f => leadingNat f.name),
       files.countP (fun f => hasRawSuffix f.name),
       files.countP (fun f => hasMetaSuffix f.name)) := by
  induction files with
  | nil => simp [scanFiles]
  | cons f rest ih =>
    obtain ⟨⟨hsome, hsz⟩, hall'⟩ := List.forall_mem_cons.mp hall
    obtain ⟨n, hn⟩ := Option.isSome_iff_exists.mp hsome
    have hguard : ¬(hasRawMarker f.name ∧ f.size = 0) := by
      rintro ⟨h1, h2⟩
      exact hsz h1 h2
    simp only [scanFiles, hn, if_neg hguard, ih hall', Except.ok.injEq, Prod.mk.injEq]
    refine ⟨?_, ?_, ?_⟩
    · rw [List.filterMap_cons, hn]
    · rw [List.countP_cons]
      by_cases hs : hasRawSuffix f.name <;> simp [hs] <;> omega
    · rw [List.countP_cons]
      by_cases hs : hasMetaSuffix f.name <;> simp [hs] <;> omega

theorem scanFiles_error_inconsistent (files : List FileEntry) :
    ∀ {e : DatasetError}, scanFiles files = Except.error e →
      e = DatasetError.inconsistentDatasetError := by
  induction files with
  | nil => intro e h; simp [scanFiles] at h
  | cons f rest ih =>
    intro e h
    cases hlead : leadingNat f.name with
    | none =>
      simp only [scanFiles, hlead, Except.error.injEq] at h
      exact h.symm
    | some n =>
      by_cases hguard : hasRawMarker f.name ∧ f.size = 0
      · simp only [scanFiles, hlead, if_pos hguard, Except.error.injEq] at h
        exact h.symm
      · cases hrest : scanFiles rest with
        | error e' =>
          simp only [scanFiles, hlead, if_neg hguard, hrest, Except.error.injEq] at h
          exact h ▸ ih hrest
        | ok triple =>
          obtain ⟨a, b, c⟩ := triple
          simp [scanFiles, hlead, if_neg hguard, hrest] at h

theorem checkConsecutive_ok_iff (l : List Nat) : ∀ (p : Nat),
    checkConsecutive (p : Int) l = Except.ok () ↔ l = List.range' (p + 1) l.length := by
  induction l with
  | nil => intro p; simp [checkConsecutive]
  | cons n rest ih =>
    intro p
    simp only [checkConsecutive, List.length_cons]
    rw [List.range'_succ]
    by_cases h : n = p + 1
    · subst h
      rw [if_neg (by omega)]
      constructor
      · intro hok
        have hr := (ih (p + 1)).mp hok
        exact congrArg (fun t => (p + 1) :: t) hr
      · intro heq
        injection heq with h1 h2
        exact (ih (p + 1)).mpr h2
    · rw [if_pos (by omega)]
      constructor
      · intro hok
        simp at hok
      · intro heq
        injection heq with h1 h2
        exact absurd h1 h

theorem checkConsecutive_error (l : List Nat) : ∀ (p : Int) {e : DatasetError},
    checkConsecutive p l = Except.error e → e = DatasetError.inconsistentDatasetError := by
  induction l with
  | nil => intro p e h; simp [checkConsecutive] at h
  | cons n rest ih =>
    intro p e h
    simp only [checkConsecutive] at h
    by_cases hc : (n : Int) - p ≠ 1
    · rw [if_pos hc] at h
      injection h with h'
      exact h'.symm
    · rw [if_neg hc] at h
      exact ih _ h

theorem mem_sortedDedup (l : List Nat) (a : Nat) : a ∈ sortedDedup l ↔ a ∈ l := by
  simp [sortedDedup, List.mem_insertionSort, List.mem_dedup]

theorem sortedDedup_nodup (l : List Nat) : (sortedDedup l).Nodup :=
  ((List.perm_insertionSort _ _).nodup_iff).mpr (List.nodup_dedup l)

theorem sortedDedup_eq_range' (l : List Nat) (N : Nat)
    (h : ∀ k, k ∈ l ↔ (1 ≤ k ∧ k ≤ N)) : sortedDedup l = List.range' 1 N := by
  apply List.eq_of_perm_of_sorted (r := (· ≤ ·))
  · refine (List.perm_ext_iff_of_nodup (sortedDedup_nodup l) (List.nodup_range' 1 N)).mpr ?_
    intro a
    rw [mem_sortedDedup, h a, List.mem_range'_1]
    omega
  · exact List.sorted_insertionSort _ _
  · exact (List.pairwise_lt_range' 1 N).imp le_of_lt

theorem sortedDedup_ne_nil (l : List Nat) (h : l ≠ []) : sortedDedup l ≠ [] := by
  obtain ⟨a, ha⟩ := List.exists_mem_of_ne_nil l h
  intro hcon
  rw [← mem_sortedDedup] at ha
  rw [hcon] at ha
  exact List.not_mem_nil a ha

theorem validate_ok_scan (files : List FileEntry)
    (h : validate_dataset files = Except.ok ()) :
    ∃ nums nraw nmeta, scanFiles files = Except.ok (nums, nraw, nmeta) := by
  by_cases hemp : files.isEmpty
  · simp [validate_dataset, hemp] at h
  · simp only [Bool.not_eq_true] at hemp
    cases hscan : scanFiles files with
    | error e => simp [validate_dataset, hemp, hscan] at h
    | ok t =>
      obtain ⟨a, b, c⟩ := t
      exact ⟨a, b, c, rfl⟩

theorem searchNat_of_leading (name : List Char) (n : Nat)
    (h : leadingNat name = some n) : searchNat name = some n := by
  cases name with
  | nil => simp [leadingNat] at h
  | cons c rest =>
    by_cases hd : c.isDigit
    · simp only [leadingNat, List.takeWhile_cons, hd, if_true] at h
      simp only [searchNat, hd, if_true]
      exact h
    · simp [leadingNat, hd] at h

theorem scanIds_keys (files : List FileEntry)
    (hall : ∀ f ∈ files, (leadingNat f.name).isSome = true) :
    ∃ ids, scanIds files = some ids
      ∧ ∀ k, (k ∈ ids ↔
          ∃ f ∈ files, hasRawMarker f.name = true ∧ leadingNat f.name = some k) := by
  induction files with
  | nil => exact ⟨[], rfl, by simp⟩
  | cons f rest ih =>
    obtain ⟨hf, hrest⟩ := List.forall_mem_cons.mp hall
    obtain ⟨ids, hids, hmem⟩ := ih hrest
    by_cases hmk : hasRawMarker f.name
    · obtain ⟨n, hn⟩ := Option.isSome_iff_exists.mp hf
      have hs : searchNat f.name = some n := searchNat_of_leading _ _ hn
      refine ⟨n :: ids, by simp [scanIds, hmk, hs, hids], ?_⟩
      intro k
      simp only [List.mem_cons, hmem]
      constructor
      · rintro (rfl | ⟨g, hg, hgmk, hgl⟩)
        · exact ⟨f, Or.inl rfl, hmk, hn⟩
        · exact ⟨g, Or.inr hg, hgmk, hgl⟩
      · rintro ⟨g, hg, hgmk, hgl⟩
        rcases hg with rfl | hg'
        · left
          rw [hn] at hgl
          injection hgl with hk
          exact hk.symm
        · right
          exact ⟨g, hg', hgmk, hgl⟩
    · refine ⟨ids, by simp [scanIds, hmk, hids], ?_⟩
      intro k
      rw [hmem]
      constructor
      · rintro ⟨g, hg, hgmk, hgl⟩
        exact ⟨g, List.mem_cons_of_mem _ hg, hgmk, hgl⟩
      · rintro ⟨g, hg, hgmk, hgl⟩
        rcases List.mem_cons.mp hg with rfl | hg'
        · exact absurd hgmk hmk
        · exact ⟨g, hg', hgmk, hgl⟩

/-- C1: for an existing directory (modelled as its listing),
`validate_dataset` succeeds iff the listing is non-empty, every file
name begins with an integer, the set of leading integers is exactly
`{1..N}` for some `N ≥ 1`, the `raw.txt`-suffixed and
`meta.json`-suffixed file counts agree, and no file whose name contains
`_raw.txt` has zero size; and every failure is `EmptyDirectoryError`
(exactly on the empty listing) or `InconsistentDatasetError` (every
other violation). -/
theorem c1_validate_dataset_characterization (files : List FileEntry) :
    (validate_dataset files = Except.ok () ↔
      (files ≠ []
       ∧ (∀ f ∈ files, (leadingNat f.name).isSome = true)
       ∧ (∃ N, 1 ≤ N ∧ ∀ k,
            (k ∈ files.filterMap (fun f => leadingNat f.name) ↔ (1 ≤ k ∧ k ≤ N)))
       ∧ files.countP (fun f => hasRawSuffix f.name)
           = files.countP (fun f => hasMetaSuffix f.name)
       ∧ (∀ f ∈ files, hasRawMarker f.name = true → f.size ≠ 0)))
    ∧ (validate_dataset files = Except.ok ()
       ∨ (files = []
          ∧ validate_dataset files = Except.error DatasetError.emptyDirectoryError)
       ∨ (files ≠ []
          ∧ validate_dataset files = Except.error DatasetError.inconsistentDatasetError)) := by
  constructor
  · constructor
    · intro hok
      by_cases hemp : files.isEmpty
      · simp [validate_dataset, hemp] at hok
      · simp only [Bool.not_eq_true] at hemp
        have hne : files ≠ [] := by
          intro h
          rw [h] at hemp
          simp at hemp
        cases hscan : scanFiles files with
        | error e => simp [validate_dataset, hemp, hscan] at hok
        | ok triple =>
          obtain ⟨nums, nraw, nmeta⟩ := triple
          obtain ⟨hall, hn, hr, hm⟩ := scanFiles_ok_props files hscan
          cases hsd : sortedDedup nums with
          | nil => simp [validate_dataset, hemp, hscan, hsd] at hok
          | cons first restS =>
            by_cases h1 : first ≠ 1
            · simp [validate_dataset, hemp, hscan, hsd, h1] at hok
            · have h1' : first = 1 := by omega
              subst h1'
              cases hcc : checkConsecutive 0 (1 :: restS) with
              | error e => simp [validate_dataset, hemp, hscan, hsd, hcc] at hok
              | ok u =>
                by_cases hcnt : nraw ≠ nmeta
                · simp [validate_dataset, hemp, hscan, hsd, hcc, hcnt] at hok
                · have hrange : 1 :: restS
                      = List.range' 1 (1 :: restS).length := by
                    have := (checkConsecutive_ok_iff (1 :: restS) 0).mp hcc
                    simpa using this
                  refine ⟨hne, fun f hf => (hall f hf).1, ?_, ?_, fun f hf => (hall f hf).2⟩
                  · refine ⟨(1 :: restS).length, by simp, ?_⟩
                    intro k
                    rw [← hn, ← mem_sortedDedup, hsd, hrange, List.mem_range'_1]
                    simp only [List.length_range']
                    omega
                  · rw [← hr, ← hm]
                    omega
    · rintro ⟨hne, hsome, ⟨N, hN1, hNmem⟩, hcnt, hempty⟩
      have hall : ∀ f ∈ files, (leadingNat f.name).isSome = true
          ∧ (hasRawMarker f.name = true → f.size ≠ 0) :=
        fun f hf => ⟨hsome f hf, hempty f hf⟩
      have hscan := scanFiles_ok_of_props files hall
      have hsd : sortedDedup (files.filterMap (fun f => leadingNat f.name))
          = List.range' 1 N :=
        sortedDedup_eq_range' _ N hNmem
      obtain ⟨M, rfl⟩ : ∃ M, N = M + 1 := ⟨N - 1, by omega⟩
      have hsd' : sortedDedup (files.filterMap (fun f => leadingNat f.name))
          = 1 :: List.range' 2 M := by
        rw [hsd, List.range'_succ]
      have hemp : files.isEmpty = false := by
        cases files with
        | nil => exact absurd rfl hne
        | cons a l => rfl
      have hcc : checkConsecutive 0 (1 :: List.range' 2 M) = Except.ok () := by
        have := (checkConsecutive_ok_iff (List.range' 1 (M + 1)) 0).mpr (by simp)
        rw [List.range'_succ] at this
        simpa using this
      simp [validate_dataset, hemp, hscan, hsd', hcc, hcnt]
  · by_cases hemp : files.isEmpty
    · right
      left
      have hnil : files = [] := by
        cases files with
        | nil => rfl
        | cons a l => simp at hemp
      exact ⟨hnil, by simp [validate_dataset, hemp]⟩
    · simp only [Bool.not_eq_true] at hemp
      have hne : files ≠ [] := by
        intro h
        rw [h] at hemp
        simp at hemp
      cases hscan : scanFiles files with
      | error e =>
        have he := scanFiles_error_inconsistent files hscan
        right
        right
        exact ⟨hne, by simp [validate_dataset, hemp, hscan, he]⟩
      | ok triple =>
        obtain ⟨nums, nraw, nmeta⟩ := triple
        obtain ⟨hall, hn, hr, hm⟩ := scanFiles_ok_props files hscan
        have hlen : nums.length = files.length := by
          rw [hn]
          exact length_filterMap_of_isSome _ files (fun f hf => (hall f hf).1)
        have hnne : nums ≠ [] := by
          intro h
          rw [h] at hlen
          cases files with
          | nil => exact hne rfl
          | cons a l => simp at hlen
        have hsdne := sortedDedup_ne_nil nums hnne
        cases hsd : sortedDedup nums with
        | nil => exact absurd hsd hsdne
        | cons first restS =>
          by_cases h1 : first ≠ 1
          · right
            right
            exact ⟨hne, by simp [validate_dataset, hemp, hscan, hsd, h1]⟩
          · have h1' : first = 1 := by omega
            subst h1'
            cases hcc : checkConsecutive 0 (1 :: restS) with
            | error e =>
              have he := checkConsecutive_error _ _ hcc
              right
              right
              exact ⟨hne, by simp [validate_dataset, hemp, hscan, hsd, hcc, he]⟩
            | ok u =>
              by_cases hcnt : nraw ≠ nmeta
              · right
                right
                exact ⟨hne, by simp [validate_dataset, hemp, hscan, hsd, hcc, hcnt]⟩
              · left
                simp [validate_dataset, hemp, hscan, hsd, hcc, hcnt]

/-- C10: whenever the directory listing is non-empty and the per-file
scan of `validate_dataset` completes without raising, the collected
`numeration` list is non-empty (one entry per file), so
`sorted(set(numeration))` is non-empty and the `sorted_numeration[0]`
access never raises `IndexError`. -/
theorem c10_sorted_head_access_safe (files : List FileEntry) (nums : List Nat)
    (nraw nmeta : Nat) (hne : files ≠ [])
    (hscan : scanFiles files = Except.ok (nums, nraw, nmeta)) :
    nums ≠ [] ∧ sortedDedup nums ≠ []
    ∧ validate_dataset files ≠ Except.error DatasetError.indexError := by
  obtain ⟨hall, hn, hr, hm⟩ := scanFiles_ok_props files hscan
  have hlen : nums.length = files.length := by
    rw [hn]
    exact length_filterMap_of_isSome _ files (fun f hf => (hall f hf).1)
  have hnne : nums ≠ [] := by
    intro h
    rw [h] at hlen
    cases files with
    | nil => exact hne rfl
    | cons a l => simp at hlen
  have hsdne := sortedDedup_ne_nil nums hnne
  refine ⟨hnne, hsdne, ?_⟩
  have hemp : files.isEmpty = false := by
    cases files with
    | nil => exact absurd rfl hne
    | cons a l => rfl
  cases hsd : sortedDedup nums with
  | nil => exact absurd hsd hsdne
  | cons first restS =>
    by_cases h1 : first ≠ 1
    · simp [validate_dataset, hemp, hscan, hsd, h1]
    · have h1' : first = 1 := by omega
      subst h1'
      cases hcc : checkConsecutive 0 (1 :: restS) with
      | error e =>
        have he := checkConsecutive_error _ _ hcc
        simp [validate_dataset, hemp, hscan, hsd, hcc, he]
      | ok u =>
        by_cases hcnt : nraw ≠ nmeta
        · simp [validate_dataset, hemp, hscan, hsd, hcc, hcnt]
        · simp [validate_dataset, hemp, hscan, hsd, hcc, hcnt]

theorem c10_sorted_head_access_safe_witness :
    validate_dataset [⟨"1_raw.txt".toList, 5⟩, ⟨"1_meta.json".toList, 7⟩]
      ≠ Except.error DatasetError.indexError :=
  (c10_sorted_head_access_safe
    [⟨"1_raw.txt".toList, 5⟩, ⟨"1_meta.json".toList, 7⟩]
    [1, 1] 1 1 (List.cons_ne_nil _ _) rfl).2.2

/-- C9: a name that begins with a digit run yields the same id under
the corpus scan's `re.search(r'\d+', name)` as under the validator's
anchored `match`; consequently, on a dataset accepted by
`validate_dataset`, the corpus scan succeeds and registers exactly the
leading ids of the files whose names contain `_raw.txt`. -/
theorem c9_scan_matches_validator_ids (name : List Char) (n : Nat)
    (files : List FileEntry) :
    (leadingNat name = some n → searchNat name = some n)
    ∧ (validate_dataset files = Except.ok () →
        ∃ ids, scanIds files = some ids
          ∧ ∀ k, (k ∈ ids ↔
              ∃ f ∈ files, hasRawMarker f.name = true ∧ leadingNat f.name = some k)) := by
  refine ⟨searchNat_of_leading name n, ?_⟩
  intro hval
  obtain ⟨nums, nraw, nmeta, hscan⟩ := validate_ok_scan files hval
  obtain ⟨hall, _, _, _⟩ := scanFiles_ok_props files hscan
  exact scanIds_keys files (fun f hf => (hall f hf).1)

theorem c9_scan_matches_validator_ids_witness :
    searchNat "1_raw.txt".toList = some 1
    ∧ ∃ ids, scanIds [⟨"1_raw.txt".toList, 5⟩, ⟨"1_meta.json".toList, 7⟩] = some ids
        ∧ ∀ k, (k ∈ ids ↔
            ∃ f ∈ [FileEntry.mk "1_raw.txt".toList 5, FileEntry.mk "1_meta.json".toList 7],
              hasRawMarker f.name = true ∧ leadingNat f.name = some k) := by
  have h := c9_scan_matches_validator_ids "1_raw.txt".toList 1
    [⟨"1_raw.txt".toList, 5⟩, ⟨"1_meta.json".toList, 7⟩]
  exact ⟨h.1 rfl, h.2 rfl⟩

end ArticlesParsing
